import Mathlib

/-!
Verification development for the sqlfluff linter core (`src/sqlfluff/linter.py`).

We shallowly embed the parts of the source that the spec's claims concern:

* `LintedFile.get_violations` — violation filtering (type, rule code,
  fixable, ignore flag and ignore mask);
* `Linter.extract_ignore_from_comment` — parsing of inline `noqa`
  suppression comments;
* `LintedFile.fix_string` — the three-way merge of the
  `(raw, templated, fixed)` file mask driven by the two opcode lists that
  `difflib.SequenceMatcher.get_opcodes` produces (the opcode lists are
  inputs of the embedded function, since `difflib` is external to the
  repository; `chainOK` states the structural guarantees of
  `get_opcodes` output, and `selfOps` is its output on two identical
  buffers);
* the fix convergence loop inside `Linter.lint_string`, with the rule
  crawlers and `apply_fixes` abstracted as function parameters, and the
  `linter_logger.warning` calls modelled as an event log.

Python strings are modelled as `List Char`; the `while True:` loops are
modelled with an explicit fuel parameter.
-/

/-- Python strings are modelled as lists of characters. -/
abbrev Str := List Char

/-- Python slicing `s[i:j]` for `0 ≤ i ≤ j` (out-of-range indices truncate). -/
def pySlice (s : Str) (i j : Nat) : Str := (s.drop i).take (j - i)

/-- The four opcode tags produced by `difflib.SequenceMatcher.get_opcodes`. -/
inductive Tag
  | equal
  | replace
  | delete
  | insert
deriving DecidableEq, Repr

/-- One opcode `(tag, i1, i2, j1, j2)` from `get_opcodes`: `a[i1:i2]` relates
to `b[j1:j2]`. -/
structure Opcode where
  tag : Tag
  a1 : Nat
  a2 : Nat
  b1 : Nat
  b2 : Nat
deriving DecidableEq, Repr

/-- The local state of the write loop in `LintedFile.fix_string`:
`write_buff`, the two opcode queues, the current `templ_block` and
`fixed_block` (None is `Option.none`), the cursor triple `idx` and the
list of skipped edit blocks reported via `print("WARNING: ...")`. -/
structure FixState where
  writeBuff : Str
  templCodes : List Opcode
  fixCodes : List Opcode
  templBlock : Option Opcode
  fixedBlock : Option Opcode
  idx0 : Nat
  idx1 : Nat
  idx2 : Nat
  warnings : List Opcode
deriving DecidableEq, Repr

/-- Result of one iteration of the write loop: the loop breaks with the
buffer, continues with a new state, or raises (`NotImplementedError` /
`TypeError`). -/
inductive StepRes
  | done (buff : Str) (warnings : List Opcode)
  | next (st : FixState)
  | err (msg : String)
deriving DecidableEq, Repr

/-- The inner fast-forward loop of the `replace` template branch of
`fix_string`: pop fix blocks until one whose templated-side range contains
`new_templ_idx`; a skipped non-`equal` block is recorded as a warning;
running out of blocks raises. -/
def fastForward (newTemplIdx : Nat) (fb : Opcode) :
    List Opcode → List Opcode → Except String (Opcode × List Opcode × List Opcode)
  | fixCodes, warns =>
    if newTemplIdx < fb.a2 ∧ fb.a1 ≤ newTemplIdx then
      .ok (fb, fixCodes, warns)
    else
      let warns' := if fb.tag ≠ Tag.equal then warns ++ [fb] else warns
      match fixCodes with
      | [] => .error "Unexpectedly depleted the fixes. Panic!"
      | f :: rest => fastForward newTemplIdx f rest warns'

/-- The body of the write loop of `fix_string` after the current
`templ_block` (`tb`) has been established; dispatches on the tag pairing
exactly as the source's `if templ_block[0] == ...` chain.  The successor
state's `templBlock`/`fixedBlock` fields record which blocks were
consumed. -/
def dispatch (raw templated fixed : Str) (st : FixState) (tb : Opcode) : StepRes :=
  match tb.tag with
  | .equal =>
    match st.fixedBlock with
    | none => .err "TypeError: fixed_block is None"
    | some fb =>
      match fb.tag with
      | .equal =>
        if tb.b2 = fb.a2 then
          let buff := pySlice templated st.idx1 fb.a2
          .next { st with templBlock := none, fixedBlock := none,
                          idx0 := st.idx0 + buff.length, idx1 := st.idx1 + buff.length,
                          idx2 := st.idx2 + buff.length,
                          writeBuff := st.writeBuff ++ buff }
        else if fb.a2 < tb.b2 then
          let buff := pySlice templated st.idx1 fb.a2
          .next { st with templBlock := some tb, fixedBlock := none,
                          idx0 := st.idx0 + buff.length, idx1 := st.idx1 + buff.length,
                          idx2 := st.idx2 + buff.length,
                          writeBuff := st.writeBuff ++ buff }
        else
          let buff := pySlice templated st.idx1 tb.b2
          .next { st with templBlock := none, fixedBlock := some fb,
                          idx0 := st.idx0 + buff.length, idx1 := st.idx1 + buff.length,
                          idx2 := st.idx2 + buff.length,
                          writeBuff := st.writeBuff ++ buff }
      | .replace =>
        if fb.a2 ≤ tb.b2 then
          .next { st with writeBuff := st.writeBuff ++ pySlice fixed st.idx2 fb.b2,
                          idx0 := st.idx0 + (fb.a2 - fb.a1), idx1 := fb.a2, idx2 := fb.b2,
                          fixedBlock := none,
                          templBlock := if st.templCodes = [] ∧ st.fixCodes = [] then none
                                        else some tb }
        else .err "DEF"
      | .delete =>
        .next { st with idx0 := st.idx0 + (fb.a2 - fb.a1), idx1 := fb.a2, idx2 := fb.b2,
                        fixedBlock := none, templBlock := some tb }
      | .insert =>
        .next { st with writeBuff := st.writeBuff ++ pySlice fixed st.idx2 fb.b2,
                        idx2 := fb.b2, fixedBlock := none, templBlock := some tb }
  | .replace =>
    match st.fixedBlock with
    | none => .err "TypeError: fixed_block is None"
    | some fb =>
      let buff := pySlice raw st.idx0 tb.a2
      let newTemplIdx := tb.b2
      match fastForward newTemplIdx fb st.fixCodes st.warnings with
      | .error m => .err m
      | .ok (fb', fixCodes', warns') =>
        if newTemplIdx = fb'.a1 then
          .next { st with writeBuff := st.writeBuff ++ buff,
                          idx0 := tb.a2, idx1 := newTemplIdx, idx2 := fb'.b1,
                          templBlock := none, fixedBlock := some fb',
                          fixCodes := fixCodes', warnings := warns' }
        else if fb'.tag = Tag.equal then
          .next { st with writeBuff := st.writeBuff ++ buff,
                          idx0 := tb.a2, idx1 := newTemplIdx,
                          idx2 := fb'.b1 + (newTemplIdx - fb'.a1),
                          templBlock := none, fixedBlock := some fb',
                          fixCodes := fixCodes', warnings := warns' }
        else .err "ABC"
  | .delete =>
    let buff := pySlice raw st.idx0 tb.a2
    .next { st with templBlock := none, idx0 := st.idx0 + buff.length,
                    writeBuff := st.writeBuff ++ buff }
  | .insert =>
    match st.fixedBlock with
    | none => .err "TypeError: fixed_block is None"
    | some fb =>
      match fb.tag with
      | .equal =>
        if tb.b2 ≤ fb.a2 then
          let insertLen := tb.b2 - tb.b1
          .next { st with idx1 := st.idx1 + insertLen, idx2 := st.idx2 + insertLen,
                          fixedBlock := if tb.b2 = fb.a2 then none else some fb,
                          templBlock := none }
        else .err "Unexpected scenario during insert opcode!"
      | _ => .err "Unexpected opcode for fix block!"

/-- The second stage of one write-loop iteration: establish `fixed_block`
(pop from `diff_fix_codes`, or raise when a non-`delete` template block
remains with no fix blocks left). -/
def stage2 (raw templated fixed : Str) (st : FixState) (tb : Opcode) : StepRes :=
  match st.fixedBlock with
  | some _ => dispatch raw templated fixed st tb
  | none =>
    match st.fixCodes with
    | f :: rest => dispatch raw templated fixed { st with fixCodes := rest, fixedBlock := some f } tb
    | [] =>
      if tb.tag ≠ Tag.delete then
        .err "A template block remains with no more diff_fix_codes left"
      else dispatch raw templated fixed st tb

/-- One full iteration of the `while True:` write loop of `fix_string`:
establish `templ_block` (popping, or terminating when both queues are
exhausted, or flushing trailing pure-insert fix blocks, or raising),
then establish `fixed_block` and dispatch. -/
def step (raw templated fixed : Str) (st : FixState) : StepRes :=
  match st.templBlock with
  | some tb => stage2 raw templated fixed st tb
  | none =>
    match st.templCodes with
    | t :: rest => stage2 raw templated fixed { st with templCodes := rest, templBlock := some t } t
    | [] =>
      if st.fixedBlock = none ∧ st.fixCodes = [] then
        .done st.writeBuff st.warnings
      else if st.fixCodes.all (fun e => e.tag = Tag.insert) then
        .done (st.fixCodes.foldl (fun acc e => acc ++ pySlice fixed e.b1 e.b2) st.writeBuff)
              st.warnings
      else
        .err "Fix Block(s) left over! aeflf8wh"

/-- The outcome of `fix_string`: the "insufficient information" return
`(None, False)`, a normal return `(write_buff, changed)`, a raised
`NotImplementedError`/`TypeError`, or fuel exhaustion of the model. -/
inductive FixStringResult
  | insufficient
  | ok (buff : Str) (changed : Bool)
  | err (msg : String)
  | fuelOut
deriving DecidableEq, Repr

/-- Run the write loop of `fix_string` to completion (fuel-bounded). -/
def fixLoop (raw templated fixed : Str) : Nat → FixState → FixStringResult
  | 0, _ => .fuelOut
  | fuel + 1, st =>
    match step raw templated fixed st with
    | .done buff _ => .ok buff (buff != raw)
    | .err m => .err m
    | .next st' => fixLoop raw templated fixed fuel st'

/-- The initial write-loop state: empty buffer, both opcode queues full,
no current blocks, cursor `(0, 0, 0)`. -/
def initFixState (templOps fixOps : List Opcode) : FixState :=
  ⟨[], templOps, fixOps, none, none, 0, 0, 0, []⟩

/-- `LintedFile.fix_string` on an explicit file mask.  `templOps` and
`fixOps` are the opcode lists that `SequenceMatcher` produced for
(raw, templated) and (templated, fixed) respectively. -/
def fixStringMasked (fileMask : Option Str × Option Str × Option Str)
    (templOps fixOps : List Opcode) (fuel : Nat) : FixStringResult :=
  match fileMask with
  | (some raw, some templated, some fixed) =>
    fixLoop raw templated fixed fuel (initFixState templOps fixOps)
  | _ => .insufficient

/-- The classes a violation object can have (`isinstance` filtering in
`get_violations` dispatches on these). -/
inductive VType
  | lint
  | parse
  | lex
  | templating
deriving DecidableEq, Repr

/-- One violation: rule code, reported line, class, `fixable` flag and the
post-hoc `ignore` flag. -/
structure Violation where
  rule_code : Str
  line_no : Nat
  vtype : VType
  fixable : Bool
  ignore : Bool
deriving DecidableEq, Repr

/-- The per-file result record: path, violations, the
`(raw, templated, fixed)` file mask and the ignore mask of
`(line_no, rules)` entries (`none` rules = suppress every rule). -/
structure LintedFile where
  path : Str
  violations : List Violation
  file_mask : Option Str × Option Str × Option Str
  ignore_mask : List (Nat × Option (List Str))
deriving DecidableEq, Repr

/-- The predicate of the per-entry list comprehension in the ignore-mask
loop of `get_violations`: keep `v` unless its line matches the entry and
the entry suppresses `v`'s rule. -/
def entryKeeps (entry : Nat × Option (List Str)) (v : Violation) : Bool :=
  !(v.line_no == entry.1 && (match entry.2 with
                             | none => true
                             | some rs => rs.contains v.rule_code))

/-- `LintedFile.get_violations(rules, types, filter_ignore, fixable)`:
filter by type, then rule code, then fixable, then (if requested) the
ignore flag and the ignore mask.  A `none` or empty `rules`/`types`
argument is falsy in the source and skips that filter. -/
def LintedFile.get_violations (lf : LintedFile) (rules : Option (List Str))
    (types : Option (List VType)) (filter_ignore : Bool) (fixable : Option Bool) :
    List Violation :=
  let violations := lf.violations
  let violations := match types with
    | none => violations
    | some ts => if ts.isEmpty then violations
                 else violations.filter (fun v => ts.contains v.vtype)
  let violations := match rules with
    | none => violations
    | some rs => if rs.isEmpty then violations
                 else violations.filter (fun v => rs.contains v.rule_code)
  let violations := match fixable with
    | none => violations
    | some b => violations.filter (fun v => v.fixable == b)
  if filter_ignore then
    let violations := violations.filter (fun v => !v.ignore)
    lf.ignore_mask.foldl (fun acc entry => acc.filter (entryKeeps entry)) violations
  else violations

/-- `LintedFile.fix_string` proper: guard on an incomplete file mask
(return the "insufficient information" outcome), else run the merge. -/
def LintedFile.fix_string (lf : LintedFile) (templOps fixOps : List Opcode)
    (fuel : Nat) : FixStringResult :=
  fixStringMasked lf.file_mask templOps fixOps fuel

/-- Python `str.strip()`: drop leading and trailing whitespace. -/
def pyStrip (s : Str) : Str :=
  ((s.dropWhile Char.isWhitespace).reverse.dropWhile Char.isWhitespace).reverse

/-- Python `str.split(',')`: split at every comma; the empty string splits
to `[""]`. -/
def pySplitComma : Str → List Str
  | [] => [[]]
  | c :: rest =>
    match pySplitComma rest with
    | [] => [[]]
    | cur :: others =>
      if c = ',' then [] :: cur :: others else (c :: cur) :: others

/-- The outcome of `Linter.extract_ignore_from_comment`: a malformed-noqa
`SQLParseError`, an ignore-mask entry, or `None`. -/
inductive NoqaResult
  | malformed
  | entry (line_no : Nat) (rules : Option (List Str))
  | nothing
deriving DecidableEq, Repr

/-- `Linter.extract_ignore_from_comment`, taking the comment's
`raw_trimmed()` text and its `pos_marker.line_no`. -/
def extract_ignore_from_comment (rawTrimmed : Str) (line_no : Nat) : NoqaResult :=
  let comment_content := pyStrip rawTrimmed
  if ("noqa".toList).isPrefixOf comment_content then
    let comment_remainder := comment_content.drop 4
    if comment_remainder ≠ [] then
      if !((":".toList).isPrefixOf comment_remainder) then
        .malformed
      else
        let comment_remainder := comment_remainder.drop 1
        .entry line_no (some ((pySplitComma comment_remainder).map pyStrip))
    else
      .entry line_no none
  else
    .nothing

/-- The three kinds of observable events which a single fix proposal can
produce inside the fix convergence loop of `Linter.lint_string`: the two
`linter_logger.warning("One fix for %s not applied, ...")` rejections
(the cycle guard and the divergence guard) and an acceptance. -/
inductive FixEventKind
  | accepted
  | cycleRejected
  | divergenceRejected
deriving DecidableEq, Repr

/-- One logged event of the convergence loop: the pass (iteration of the
outer `while True:`) it happened in, its kind and the proposal. -/
structure FixEvent (F : Type) where
  passNo : Nat
  kind : FixEventKind
  fixes : List F
deriving DecidableEq, Repr

/-- The loop state of the fix convergence loop in `Linter.lint_string`:
`working`, `previous_versions` (insertion-ordered, used as a set),
`last_fixes`, the per-pass `changed` flag, the current pass number and
the event log. -/
structure ConvState (T F : Type) where
  working : T
  previous_versions : List Str
  last_fixes : Option (List F)
  changed : Bool
  passNo : Nat
  log : List (FixEvent F)
deriving DecidableEq, Repr

/-- Handling of one crawler's output inside a pass: skip an empty (falsy)
proposal; reject a proposal equal to `last_fixes` (cycle guard); else
record it as `last_fixes`, apply it, and either reject the candidate
whose serialisation is already in `previous_versions` (divergence guard)
or accept it. -/
def handleProposal {T F : Type} [DecidableEq F] (raw : T → Str)
    (apply_fixes : T → List F → T × List F) (st : ConvState T F) (fixes : List F) :
    ConvState T F :=
  if fixes = [] then st
  else if st.last_fixes = some fixes then
    { st with log := st.log ++ [⟨st.passNo, .cycleRejected, fixes⟩] }
  else
    let new_working := (apply_fixes st.working fixes).1
    if raw new_working ∈ st.previous_versions then
      { st with last_fixes := some fixes,
                log := st.log ++ [⟨st.passNo, .divergenceRejected, fixes⟩] }
    else
      { st with last_fixes := some fixes, working := new_working,
                previous_versions := st.previous_versions ++ [raw new_working],
                changed := true,
                log := st.log ++ [⟨st.passNo, .accepted, fixes⟩] }

/-- One pass of the convergence loop: reset `changed`, then run every
crawler in order against the current `working` tree. -/
def runPass {T F : Type} [DecidableEq F] (raw : T → Str)
    (apply_fixes : T → List F → T × List F) (crawlers : List (T → List F))
    (st : ConvState T F) : ConvState T F :=
  crawlers.foldl (fun acc c => handleProposal raw apply_fixes acc (c acc.working))
    { st with changed := false }

/-- The fix convergence loop (`while True: ... if not changed: break`),
fuel-bounded; `none` means the fuel ran out before the loop ended. -/
def fixConvergenceLoop {T F : Type} [DecidableEq F] (raw : T → Str)
    (apply_fixes : T → List F → T × List F) (crawlers : List (T → List F)) :
    Nat → ConvState T F → Option (ConvState T F)
  | 0, _ => none
  | fuel + 1, st =>
    let st' := runPass raw apply_fixes crawlers { st with passNo := st.passNo + 1 }
    if st'.changed then fixConvergenceLoop raw apply_fixes crawlers fuel st'
    else some st'

/-- The initial convergence-loop state: `working = parsed`,
`previous_versions = {working.raw}`, `last_fixes = None`. -/
def initConvState {T F : Type} (raw : T → Str) (parsed : T) : ConvState T F :=
  ⟨parsed, [raw parsed], none, false, 0, []⟩

/-- Discriminator for the hard-failure (raised) outcome of `fix_string`. -/
def FixStringResult.isErr : FixStringResult → Bool
  | .err _ => true
  | _ => false

/-- The type filter of `get_violations` as a single predicate (`none` and
the empty tuple are falsy and filter nothing). -/
def typePred (types : Option (List VType)) : Violation → Bool :=
  match types with
  | none => fun _ => true
  | some ts => if ts.isEmpty then fun _ => true else fun v => ts.contains v.vtype

/-- The rule-code filter of `get_violations` as a single predicate. -/
def rulePred (rules : Option (List Str)) : Violation → Bool :=
  match rules with
  | none => fun _ => true
  | some rs => if rs.isEmpty then fun _ => true else fun v => rs.contains v.rule_code

/-- The fixable filter of `get_violations` as a single predicate. -/
def fixablePred (fixable : Option Bool) : Violation → Bool :=
  match fixable with
  | none => fun _ => true
  | some b => fun v => v.fixable == b

/-- The ignore filter of `get_violations` (ignore flag plus ignore mask)
as a single predicate. -/
def ignorePred (filter_ignore : Bool) (mask : List (Nat × Option (List Str))) :
    Violation → Bool :=
  if filter_ignore then fun v => !v.ignore && mask.all (fun e => entryKeeps e v)
  else fun _ => true

theorem foldl_filter_mask (mask : List (Nat × Option (List Str))) (vs : List Violation) :
    mask.foldl (fun acc entry => acc.filter (entryKeeps entry)) vs
      = vs.filter (fun v => mask.all (fun e => entryKeeps e v)) := by
  induction mask generalizing vs with
  | nil => simp
  | cons e rest ih =>
    simp only [List.foldl_cons, ih, List.filter_filter]
    apply List.filter_congr
    intro v _
    simp [Bool.and_comm]

theorem get_violations_eq_filters (lf : LintedFile) (rules : Option (List Str))
    (types : Option (List VType)) (fi : Bool) (fx : Option Bool) :
    lf.get_violations rules types fi fx
      = (((lf.violations.filter (typePred types)).filter (rulePred rules)).filter
          (fixablePred fx)).filter (ignorePred fi lf.ignore_mask) := by
  unfold LintedFile.get_violations typePred rulePred fixablePred ignorePred
  cases types <;> cases rules <;> cases fx <;> cases fi <;>
    simp only [foldl_filter_mask] <;>
    split_ifs <;>
    simp [List.filter_filter, Bool.and_comm, Bool.and_left_comm, Bool.and_assoc]

/-- C3: when any element of the file mask `(raw, templated, fixed)` is
absent, `fix_string` returns the distinguished "insufficient information"
outcome `(None, False)` without raising, and that outcome is a different
constructor from the raised reconciliation failure. -/
theorem fix_string_insufficient_of_absent (lf : LintedFile)
    (templOps fixOps : List Opcode) (fuel : Nat)
    (h : lf.file_mask.1 = none ∨ lf.file_mask.2.1 = none ∨ lf.file_mask.2.2 = none) :
    lf.fix_string templOps fixOps fuel = FixStringResult.insufficient ∧
      FixStringResult.insufficient.isErr = false := by
  refine ⟨?_, rfl⟩
  unfold LintedFile.fix_string fixStringMasked
  rcases hm : lf.file_mask with ⟨_ | r, _ | t, _ | f⟩ <;> simp_all

/-- Witness for `fix_string_insufficient_of_absent` at a concrete file mask
whose templated element is absent. -/
theorem fix_string_insufficient_of_absent_witness :
    LintedFile.fix_string ⟨[], [], (some [], none, some []), []⟩ [] [] 5
        = FixStringResult.insufficient ∧
      FixStringResult.insufficient.isErr = false :=
  fix_string_insufficient_of_absent ⟨[], [], (some [], none, some []), []⟩ [] [] 5
    (Or.inr (Or.inl rfl))

/-- C7 counterexample: with every optional filter left at its default
(`rules=None, types=None, filter_ignore=True, fixable=None`),
`get_violations` does NOT return the full collection unchanged — the
default `filter_ignore=True` drops a violation whose ignore flag is set. -/
theorem get_violations_default_counterexample :
    ({ path := [], violations := [⟨['r'], 1, VType.lint, false, true⟩],
       file_mask := (none, none, none), ignore_mask := [] } : LintedFile).get_violations
        none none true none
      ≠ ({ path := [], violations := [⟨['r'], 1, VType.lint, false, true⟩],
           file_mask := (none, none, none), ignore_mask := [] } : LintedFile).violations := by
  decide

/-- C7 amended: the defaults of the rule-code, type and fixable filters
are indeed "no filtering", but the ignore filter defaults to ON
(`filter_ignore=True`); with all-default arguments only the ignore flag
and the ignore mask are applied, so the full collection is returned
unchanged whenever no violation is flagged ignored and the ignore mask is
empty. -/
theorem get_violations_default_eq_of_unignored (lf : LintedFile)
    (h1 : ∀ v ∈ lf.violations, v.ignore = false) (h2 : lf.ignore_mask = []) :
    lf.get_violations none none true none = lf.violations := by
  rw [get_violations_eq_filters]
  simp only [typePred, rulePred, fixablePred, ignorePred, h2, if_pos rfl, List.all_nil,
    Bool.and_true, List.filter_true]
  exact List.filter_eq_self.mpr (fun v hv => by simp [h1 v hv])

/-- Witness for `get_violations_default_eq_of_unignored` on a concrete
file with two unignored violations and an empty ignore mask. -/
theorem get_violations_default_eq_of_unignored_witness :
    ({ path := [], violations := [⟨['r'], 1, VType.lint, true, false⟩,
                                  ⟨['s'], 2, VType.parse, false, false⟩],
       file_mask := (none, none, none), ignore_mask := [] } : LintedFile).get_violations
        none none true none
      = ({ path := [], violations := [⟨['r'], 1, VType.lint, true, false⟩,
                                      ⟨['s'], 2, VType.parse, false, false⟩],
           file_mask := (none, none, none), ignore_mask := [] } : LintedFile).violations :=
  get_violations_default_eq_of_unignored _ (by decide) rfl

/-- C9: an ignore-mask entry `(n, None)` suppresses, under
`filter_ignore=True`, every violation reported at line `n`, regardless of
its rule code: no violation at line `n` survives `get_violations`. -/
theorem ignore_mask_none_suppresses_line (lf : LintedFile) (n : Nat)
    (rules : Option (List Str)) (types : Option (List VType)) (fx : Option Bool)
    (v : Violation)
    (hmask : (n, (none : Option (List Str))) ∈ lf.ignore_mask)
    (hv : v ∈ lf.get_violations rules types true fx) :
    v.line_no ≠ n := by
  rw [get_violations_eq_filters] at hv
  have hpred := List.of_mem_filter hv
  simp [ignorePred] at hpred
  intro hline
  have hkeep := hpred.2 n none hmask
  simp [entryKeeps, hline] at hkeep

/-- Witness for `ignore_mask_none_suppresses_line`: with mask `[(2, None)]`
the surviving violation of a concrete file is not at line 2. -/
theorem ignore_mask_none_suppresses_line_witness :
    (⟨['s'], 3, VType.lint, false, false⟩ : Violation).line_no ≠ 2 :=
  ignore_mask_none_suppresses_line
    { path := [], violations := [⟨['r'], 2, VType.lint, false, false⟩,
                                 ⟨['s'], 3, VType.lint, false, false⟩],
      file_mask := (none, none, none), ignore_mask := [(2, none)] }
    2 none none none _ (by decide) (by decide)

/-- C10: an inline comment whose stripped content is exactly `noqa:`
yields the mask entry `(line, ("",))` — a rule tuple holding only the
empty string, not the suppress-all `None` and not a malformed-directive
error — and under `get_violations` such an entry suppresses no violation
whose rule code is non-empty: filtering with mask `[(n, ("",))]` equals
filtering with an empty mask. -/
theorem extract_noqa_bare_colon (s : Str) (n : Nat)
    (h : pyStrip s = "noqa:".toList) :
    extract_ignore_from_comment s n = NoqaResult.entry n (some [[]]) ∧
      (∀ lf : LintedFile, ∀ rules types fx,
        lf.ignore_mask = [(n, some [[]])] →
        (∀ v ∈ lf.violations, v.rule_code ≠ []) →
        lf.get_violations rules types true fx
          = ({ lf with ignore_mask := [] } : LintedFile).get_violations rules types true fx) := by
  constructor
  · simp only [extract_ignore_from_comment, h]
    rfl
  · intro lf rules types fx hmask hcodes
    rw [get_violations_eq_filters, get_violations_eq_filters]
    apply List.filter_congr
    intro v hv
    have hvmem : v ∈ lf.violations :=
      List.mem_of_mem_filter (List.mem_of_mem_filter (List.mem_of_mem_filter hv))
    have hrc := hcodes v hvmem
    simp only [ignorePred, hmask, entryKeeps, List.contains]
    simp
    intro _
    exact Or.inr hrc

/-- Witness for `extract_noqa_bare_colon` on the comment text `noqa:`
itself (line 7) and a one-violation file whose rule code is `L1`. -/
theorem extract_noqa_bare_colon_witness :
    extract_ignore_from_comment "noqa:".toList 7 = NoqaResult.entry 7 (some [[]]) ∧
      ({ path := [], violations := [⟨['L', '1'], 7, VType.lint, false, false⟩],
         file_mask := (none, none, none),
         ignore_mask := [(7, some [[]])] } : LintedFile).get_violations none none true none
        = ({ path := [], violations := [⟨['L', '1'], 7, VType.lint, false, false⟩],
             file_mask := (none, none, none),
             ignore_mask := [] } : LintedFile).get_violations none none true none :=
  ⟨(extract_noqa_bare_colon "noqa:".toList 7 (by decide)).1,
   (extract_noqa_bare_colon "noqa:".toList 7 (by decide)).2
     { path := [], violations := [⟨['L', '1'], 7, VType.lint, false, false⟩],
       file_mask := (none, none, none), ignore_mask := [(7, some [[]])] }
     none none none rfl (by decide)⟩

theorem filter_comm_violations (vs : List Violation) (p q : Violation → Bool) :
    (vs.filter p).filter q = (vs.filter q).filter p := by
  simp [List.filter_filter, Bool.and_comm]

theorem foldl_filter_perm (l1 l2 : List (Violation → Bool)) (h : l1.Perm l2) :
    ∀ vs : List Violation,
      l1.foldl (fun acc p => acc.filter p) vs = l2.foldl (fun acc p => acc.filter p) vs := by
  induction h with
  | nil => intro vs; rfl
  | cons x _ ih => intro vs; simp only [List.foldl_cons]; exact ih _
  | swap x y l => intro vs; simp only [List.foldl_cons]; rw [filter_comm_violations]
  | trans _ _ ih1 ih2 => intro vs; exact (ih1 vs).trans (ih2 vs)

/-- C8: applying the four `get_violations` filters — type, rule code,
fixable, and the ignore filter (ignore flag plus ignore mask) — in any
order yields exactly the list the implemented order (type, then rule
code, then fixable, then ignore) produces. -/
theorem get_violations_order_independent (lf : LintedFile) (rules : Option (List Str))
    (types : Option (List VType)) (fi : Bool) (fx : Option Bool)
    (ps : List (Violation → Bool))
    (h : ps.Perm [typePred types, rulePred rules, fixablePred fx,
                  ignorePred fi lf.ignore_mask]) :
    ps.foldl (fun acc p => acc.filter p) lf.violations
      = lf.get_violations rules types fi fx := by
  rw [foldl_filter_perm _ _ h lf.violations, get_violations_eq_filters]
  rfl

/-- Witness for `get_violations_order_independent`: the rule filter
applied before the type filter on a concrete file gives the implemented
result. -/
theorem get_violations_order_independent_witness :
    [rulePred (some [['r']]), typePred (some [VType.lint]), fixablePred (some true),
     ignorePred true []].foldl (fun acc p => acc.filter p)
        ({ path := [], violations := [⟨['r'], 1, VType.lint, true, false⟩,
                                      ⟨['s'], 2, VType.parse, false, false⟩],
           file_mask := (none, none, none), ignore_mask := [] } : LintedFile).violations
      = ({ path := [], violations := [⟨['r'], 1, VType.lint, true, false⟩,
                                      ⟨['s'], 2, VType.parse, false, false⟩],
           file_mask := (none, none, none), ignore_mask := [] } : LintedFile).get_violations
          (some [['r']]) (some [VType.lint]) true (some true) :=
  get_violations_order_independent _ _ _ _ _ _
    (List.Perm.swap (typePred (some [VType.lint])) (rulePred (some [['r']])) _)

theorem handleProposal_facts {T F : Type} [DecidableEq F] (raw : T → Str)
    (apply_fixes : T → List F → T × List F) (st : ConvState T F) (fixes : List F) :
    (handleProposal raw apply_fixes st fixes).passNo = st.passNo ∧
      st.previous_versions.length
        ≤ (handleProposal raw apply_fixes st fixes).previous_versions.length ∧
      ((handleProposal raw apply_fixes st fixes).changed = true →
        st.changed = true ∨
          st.previous_versions.length + 1
            ≤ (handleProposal raw apply_fixes st fixes).previous_versions.length) := by
  unfold handleProposal
  split_ifs <;> try simp
  all_goals (split_ifs <;> simp)

theorem foldl_handle_facts {T F : Type} [DecidableEq F] (raw : T → Str)
    (apply_fixes : T → List F → T × List F) (crawlers : List (T → List F)) :
    ∀ acc : ConvState T F,
      (crawlers.foldl (fun a c => handleProposal raw apply_fixes a (c a.working)) acc).passNo
          = acc.passNo ∧
        acc.previous_versions.length
          ≤ (crawlers.foldl (fun a c => handleProposal raw apply_fixes a (c a.working))
              acc).previous_versions.length ∧
        ((crawlers.foldl (fun a c => handleProposal raw apply_fixes a (c a.working))
              acc).changed = true →
          acc.changed = true ∨
            acc.previous_versions.length + 1
              ≤ (crawlers.foldl (fun a c => handleProposal raw apply_fixes a (c a.working))
                  acc).previous_versions.length) := by
  induction crawlers with
  | nil => intro acc; exact ⟨rfl, le_refl _, fun h => Or.inl h⟩
  | cons c rest ih =>
    intro acc
    simp only [List.foldl_cons]
    obtain ⟨hp1, hp2, hp3⟩ := handleProposal_facts raw apply_fixes acc (c acc.working)
    obtain ⟨ih1, ih2, ih3⟩ := ih (handleProposal raw apply_fixes acc (c acc.working))
    refine ⟨ih1.trans hp1, hp2.trans ih2, fun hc => ?_⟩
    rcases ih3 hc with h | h
    · rcases hp3 h with h2 | h2
      · exact Or.inl h2
      · exact Or.inr (h2.trans ih2)
    · exact Or.inr (le_trans (Nat.succ_le_succ hp2) h)

theorem runPass_facts {T F : Type} [DecidableEq F] (raw : T → Str)
    (apply_fixes : T → List F → T × List F) (crawlers : List (T → List F))
    (st : ConvState T F) :
    (runPass raw apply_fixes crawlers st).passNo = st.passNo ∧
      st.previous_versions.length
        ≤ (runPass raw apply_fixes crawlers st).previous_versions.length ∧
      ((runPass raw apply_fixes crawlers st).changed = true →
        st.previous_versions.length + 1
          ≤ (runPass raw apply_fixes crawlers st).previous_versions.length) := by
  unfold runPass
  obtain ⟨h1, h2, h3⟩ := foldl_handle_facts raw apply_fixes crawlers { st with changed := false }
  exact ⟨h1, h2, fun hc => (h3 hc).resolve_left (by simp)⟩

theorem fix_loop_bound_aux {T F : Type} [DecidableEq F] (raw : T → Str)
    (apply_fixes : T → List F → T × List F) (crawlers : List (T → List F)) :
    ∀ (fuel : Nat) (st final : ConvState T F),
      fixConvergenceLoop raw apply_fixes crawlers fuel st = some final →
      final.passNo + st.previous_versions.length
        ≤ st.passNo + final.previous_versions.length + 1 := by
  intro fuel
  induction fuel with
  | zero => intro st final h; cases h
  | succ n ih =>
    intro st final h
    simp only [fixConvergenceLoop] at h
    obtain ⟨h1, h2, h3⟩ :=
      runPass_facts raw apply_fixes crawlers { st with passNo := st.passNo + 1 }
    dsimp only at h1 h2 h3
    split at h
    · have hb := ih _ final h
      have hgrow := h3 (by assumption)
      omega
    · cases h
      omega

/-- C4 amended: whenever the fix convergence loop of `lint_string`
terminates, the number of passes of its outer while-loop is at most the
final size of the `previous_versions` set plus one (each pass except the
last accepts at least one edit and strictly grows the seen-set).
Unconditional termination, as the original claim states it, fails — see
the counterexample. -/
theorem fix_loop_pass_bound {T F : Type} [DecidableEq F] (raw : T → Str)
    (apply_fixes : T → List F → T × List F) (crawlers : List (T → List F))
    (fuel : Nat) (parsed : T) (final : ConvState T F)
    (h : fixConvergenceLoop raw apply_fixes crawlers fuel (initConvState raw parsed)
          = some final) :
    final.passNo ≤ final.previous_versions.length + 1 := by
  have hb := fix_loop_bound_aux raw apply_fixes crawlers fuel _ final h
  simp only [initConvState, List.length_cons, List.length_nil] at hb
  omega

/-- Witness for `fix_loop_pass_bound`: an empty rule set terminates after
one pass, and the bound holds on the resulting state. -/
theorem fix_loop_pass_bound_witness :
    (⟨[], [[]], none, false, 1, []⟩ : ConvState Str Str).passNo
      ≤ (⟨[], [[]], none, false, 1, []⟩ : ConvState Str Str).previous_versions.length + 1 :=
  fix_loop_pass_bound (F := Str) id (fun s _ => (s, [])) [] 3 [] _ rfl

/-- A concrete finite rule set (one crawler) for the convergence loop: its
proposal is the current serialised text, and applying it appends one
character, so every candidate is brand new. -/
def divergeCrawlers : List (Str → List Str) := [fun s => [s]]

/-- The `apply_fixes` of the diverging rule system: append `a`. -/
def divergeApply : Str → List Str → Str × List Str := fun s _ => (s ++ ['a'], [])

/-- Non-termination of the fuel-bounded loop: it runs out of any amount of
fuel. -/
def neverTerminates (st : ConvState Str Str) : Prop :=
  ∀ fuel : Nat, fixConvergenceLoop id divergeApply divergeCrawlers fuel st = none

theorem diverge_runPass (st : ConvState Str Str)
    (hseen : ∀ x ∈ st.previous_versions, x.length ≤ st.working.length)
    (hlast : st.last_fixes = none ∨
      ∃ y, st.last_fixes = some [y] ∧ y.length < st.working.length) :
    runPass id divergeApply divergeCrawlers st
      = { st with changed := true, working := st.working ++ ['a'],
                  previous_versions := st.previous_versions ++ [st.working ++ ['a']],
                  last_fixes := some [st.working],
                  log := st.log ++ [⟨st.passNo, FixEventKind.accepted, [st.working]⟩] } := by
  have hguard : ¬st.last_fixes = some [st.working] := by
    rcases hlast with h | ⟨y, hy, hlt⟩
    · simp [h]
    · rw [hy]
      intro hcon
      have heq : y = st.working := by simpa using hcon
      rw [heq] at hlt
      omega
  have hmem : st.working ++ ['a'] ∉ st.previous_versions := by
    intro hmem
    have := hseen _ hmem
    simp at this
  unfold runPass divergeCrawlers
  simp only [List.foldl_cons, List.foldl_nil]
  unfold handleProposal divergeApply
  simp [hguard, hmem]

/-- C4 counterexample: the fix convergence loop does NOT terminate for
every finite rule set and finite tree.  With the single rule
`divergeCrawlers`/`divergeApply` (each pass proposes a fresh edit and the
candidate text is always new) every pass accepts an edit, so the loop
never ends: it exhausts any amount of fuel. -/
theorem fix_loop_nonterminating_counterexample :
    neverTerminates (initConvState id []) := by
  have main : ∀ (fuel : Nat) (st : ConvState Str Str),
      (∀ x ∈ st.previous_versions, x.length ≤ st.working.length) →
      (st.last_fixes = none ∨
        ∃ y, st.last_fixes = some [y] ∧ y.length < st.working.length) →
      fixConvergenceLoop id divergeApply divergeCrawlers fuel st = none := by
    intro fuel
    induction fuel with
    | zero => intro st _ _; rfl
    | succ n ih =>
      intro st hseen hlast
      simp only [fixConvergenceLoop]
      rw [diverge_runPass { st with passNo := st.passNo + 1 } (by simpa using hseen)
            (by simpa using hlast)]
      simp only [if_pos rfl]
      apply ih
      · intro x hx
        simp only [List.mem_append, List.mem_singleton] at hx
        rcases hx with hx | hx
        · have := hseen x hx
          simp only [List.length_append, List.length_singleton]
          omega
        · simp [hx]
      · right
        exact ⟨st.working, rfl, by simp⟩
  intro fuel
  exact main fuel _ (by simp [initConvState]) (Or.inl rfl)

/-- C5 counterexample: a proposal identical only to a proposal from an
EARLIER pass is nevertheless rejected by the cycle guard, because
`last_fixes` persists across passes.  One crawler always proposes the
same fixes; pass 1 accepts them, pass 2 cycle-rejects them — the log of
the concrete run is `[accepted in pass 1, cycleRejected in pass 2]`,
contradicting "proposals identical only to proposals from earlier passes
are applied". -/
theorem cycle_guard_cross_pass_counterexample :
    (fixConvergenceLoop (F := Str) id (fun _ _ => (['X'], []))
        [fun _ => [['f']]] 5 (initConvState id ['w'])).map (fun st => st.log)
      = some [⟨1, FixEventKind.accepted, [['f']]⟩,
              ⟨2, FixEventKind.cycleRejected, [['f']]⟩] := by
  rfl

/-- C5 amended: a proposal is rejected by the cycle guard exactly when it
is identical to `last_fixes`, i.e. to the most recent earlier proposal
that passed the cycle guard — whether or not that proposal was in the
same pass, and whether it was accepted or rejected by the divergence
guard (`last_fixes` is updated even on divergence rejection and persists
across passes).  On cycle rejection only the warning is logged and
nothing else changes; otherwise the proposal is not cycle-rejected and
`last_fixes` is updated to it. -/
theorem cycle_guard_rejects_iff_last (T F : Type) [DecidableEq F] (raw : T → Str)
    (apply_fixes : T → List F → T × List F) (st : ConvState T F) (fixes : List F)
    (hne : fixes ≠ []) :
    (st.last_fixes = some fixes →
       handleProposal raw apply_fixes st fixes
         = { st with log := st.log ++ [⟨st.passNo, FixEventKind.cycleRejected, fixes⟩] }) ∧
    (st.last_fixes ≠ some fixes →
       (handleProposal raw apply_fixes st fixes).last_fixes = some fixes ∧
       ∀ e ∈ (handleProposal raw apply_fixes st fixes).log,
         e ∈ st.log ∨ e.kind ≠ FixEventKind.cycleRejected) := by
  constructor
  · intro hlast
    unfold handleProposal
    simp [hne, hlast]
  · intro hlast
    unfold handleProposal
    rw [if_neg hne, if_neg hlast]
    dsimp only
    by_cases hmem : raw (apply_fixes st.working fixes).1 ∈ st.previous_versions
    · rw [if_pos hmem]
      refine ⟨rfl, fun e he => ?_⟩
      simp only [List.mem_append, List.mem_singleton] at he
      rcases he with he | he
      · exact Or.inl he
      · right
        simp [he]
    · rw [if_neg hmem]
      refine ⟨rfl, fun e he => ?_⟩
      simp only [List.mem_append, List.mem_singleton] at he
      rcases he with he | he
      · exact Or.inl he
      · right
        simp [he]

/-- Witness for `cycle_guard_rejects_iff_last` at a concrete state whose
`last_fixes` equals the incoming proposal `[3]`. -/
theorem cycle_guard_rejects_iff_last_witness :
    ((⟨['w'], [['w']], some [3], false, 2, []⟩ : ConvState Str Nat).last_fixes = some [3] →
       handleProposal id (fun s _ => (s, [])) ⟨['w'], [['w']], some [3], false, 2, []⟩ [3]
         = ⟨['w'], [['w']], some [3], false, 2,
            [⟨2, FixEventKind.cycleRejected, [3]⟩]⟩) ∧
    ((⟨['w'], [['w']], some [3], false, 2, []⟩ : ConvState Str Nat).last_fixes ≠ some [3] →
       (handleProposal id (fun s _ => (s, [])) ⟨['w'], [['w']], some [3], false, 2, []⟩
           [3]).last_fixes = some [3] ∧
       ∀ e ∈ (handleProposal id (fun s _ => (s, []))
                ⟨['w'], [['w']], some [3], false, 2, []⟩ [3]).log,
         e ∈ ([] : List (FixEvent Nat)) ∨ e.kind ≠ FixEventKind.cycleRejected) :=
  cycle_guard_rejects_iff_last Str Nat id (fun s _ => (s, []))
    ⟨['w'], [['w']], some [3], false, 2, []⟩ [3] (by decide)

/-- C6: given a proposal that passed the cycle guard, if the candidate's
serialised text is already in `previous_versions` the edit is rejected
with a warning and the working tree, the seen-set and the `changed` flag
are all left unmodified; if it is new, the candidate becomes the working
tree, its serialisation is appended to `previous_versions`, and the pass
is marked changed. -/
theorem divergence_guard_spec (T F : Type) [DecidableEq F] (raw : T → Str)
    (apply_fixes : T → List F → T × List F) (st : ConvState T F) (fixes : List F)
    (hne : fixes ≠ []) (hguard : st.last_fixes ≠ some fixes) :
    (raw (apply_fixes st.working fixes).1 ∈ st.previous_versions →
       (handleProposal raw apply_fixes st fixes).working = st.working ∧
       (handleProposal raw apply_fixes st fixes).previous_versions = st.previous_versions ∧
       (handleProposal raw apply_fixes st fixes).changed = st.changed ∧
       (handleProposal raw apply_fixes st fixes).log
         = st.log ++ [⟨st.passNo, FixEventKind.divergenceRejected, fixes⟩]) ∧
    (raw (apply_fixes st.working fixes).1 ∉ st.previous_versions →
       (handleProposal raw apply_fixes st fixes).working = (apply_fixes st.working fixes).1 ∧
       (handleProposal raw apply_fixes st fixes).previous_versions
         = st.previous_versions ++ [raw (apply_fixes st.working fixes).1] ∧
       (handleProposal raw apply_fixes st fixes).changed = true ∧
       (handleProposal raw apply_fixes st fixes).log
         = st.log ++ [⟨st.passNo, FixEventKind.accepted, fixes⟩]) := by
  unfold handleProposal
  constructor <;> intro hmem <;> simp [hne, hguard, hmem]

/-- Witness for `divergence_guard_spec`: a concrete state in which the
candidate `X` is not yet in `previous_versions`, so it is accepted. -/
theorem divergence_guard_spec_witness :
    ((['X'] : Str) ∈ [(['w'] : Str)] →
       (handleProposal id (fun _ _ => (['X'], [])) ⟨['w'], [['w']], none, false, 1, []⟩
           [3]).working = ['w'] ∧
       (handleProposal id (fun _ _ => (['X'], [])) ⟨['w'], [['w']], none, false, 1, []⟩
           [3]).previous_versions = [['w']] ∧
       (handleProposal id (fun _ _ => (['X'], [])) ⟨['w'], [['w']], none, false, 1, []⟩
           [3]).changed = false ∧
       (handleProposal id (fun _ _ => (['X'], [])) ⟨['w'], [['w']], none, false, 1, []⟩
           [3]).log = [⟨1, FixEventKind.divergenceRejected, [3]⟩]) ∧
    ((['X'] : Str) ∉ [(['w'] : Str)] →
       (handleProposal id (fun _ _ => (['X'], [])) ⟨['w'], [['w']], none, false, 1, []⟩
           [3]).working = ['X'] ∧
       (handleProposal id (fun _ _ => (['X'], [])) ⟨['w'], [['w']], none, false, 1, []⟩
           [3]).previous_versions = [['w'], ['X']] ∧
       (handleProposal id (fun _ _ => (['X'], [])) ⟨['w'], [['w']], none, false, 1, []⟩
           [3]).changed = true ∧
       (handleProposal id (fun _ _ => (['X'], [])) ⟨['w'], [['w']], none, false, 1, []⟩
           [3]).log = [⟨1, FixEventKind.accepted, [3]⟩]) :=
  divergence_guard_spec Str Nat id (fun _ _ => (['X'], []))
    ⟨['w'], [['w']], none, false, 1, []⟩ [3] (by decide) (by decide)

theorem fastForward_spec (newTemplIdx : Nat) :
    ∀ (codes : List Opcode) (fb : Opcode) (warns : List Opcode) (fb' : Opcode)
      (codes' warns' : List Opcode),
      fastForward newTemplIdx fb codes warns = .ok (fb', codes', warns') →
      ∃ skipped, fb :: codes = skipped ++ fb' :: codes' ∧
        warns' = warns ++ skipped.filter (fun e => e.tag != Tag.equal) := by
  intro codes
  induction codes with
  | nil =>
    intro fb warns fb' codes' warns' h
    unfold fastForward at h
    by_cases hc : newTemplIdx < fb.a2 ∧ fb.a1 ≤ newTemplIdx
    · rw [if_pos hc] at h
      obtain ⟨h1, h2, h3⟩ : fb = fb' ∧ ([] : List Opcode) = codes' ∧ warns = warns' := by
        simpa using h
      exact ⟨[], by simp [h1, h2], by simp [h3]⟩
    · rw [if_neg hc] at h
      simp at h
  | cons f rest ih =>
    intro fb warns fb' codes' warns' h
    unfold fastForward at h
    by_cases hc : newTemplIdx < fb.a2 ∧ fb.a1 ≤ newTemplIdx
    · rw [if_pos hc] at h
      obtain ⟨h1, h2, h3⟩ : fb = fb' ∧ f :: rest = codes' ∧ warns = warns' := by
        simpa using h
      exact ⟨[], by simp [h1, h2], by simp [h3]⟩
    · rw [if_neg hc] at h
      dsimp only at h
      obtain ⟨skipped, hs1, hs2⟩ := ih f _ fb' codes' warns' h
      refine ⟨fb :: skipped, by simp [hs1], ?_⟩
      rw [hs2]
      by_cases htag : fb.tag = Tag.equal <;> simp [htag]

/-- C1: template-region preservation in the write loop of `fix_string`.
For the loop body with an established current template block `tb`:
if `tb` is a `replace` op (a templated span not present verbatim in raw)
then the iteration either raises or appends to the output exactly the raw
text `raw[idx0:tb.a2]` of the replaced span — never a character of
`fixed` — while fast-forwarding through the fix queue; the blocks it
discards are recorded, and every discarded block that is a real edit
(non-`equal`) is emitted as a warning.  If `tb` is an `insert` op
(templated-only text) the iteration either raises or appends nothing at
all.  So no character of the output over a template-replaced or
template-inserted span is ever sourced from the fixed buffer, and a fix
edit overlapping such a region is discarded with a warning or surfaces
as a raised error, never applied silently. -/
theorem template_region_preservation (raw templated fixed : Str) (st : FixState)
    (tb : Opcode) :
    (tb.tag = Tag.replace →
       (∃ m, dispatch raw templated fixed st tb = .err m) ∨
       (∃ st' fb0 landing skipped,
          st.fixedBlock = some fb0 ∧
          dispatch raw templated fixed st tb = .next st' ∧
          st'.writeBuff = st.writeBuff ++ pySlice raw st.idx0 tb.a2 ∧
          st'.fixedBlock = some landing ∧
          fb0 :: st.fixCodes = skipped ++ landing :: st'.fixCodes ∧
          st'.warnings = st.warnings ++ skipped.filter (fun e => e.tag != Tag.equal))) ∧
    (tb.tag = Tag.insert →
       (∃ m, dispatch raw templated fixed st tb = .err m) ∨
       (∃ st', dispatch raw templated fixed st tb = .next st' ∧
          st'.writeBuff = st.writeBuff)) := by
  constructor
  · intro htag
    unfold dispatch
    rw [htag]
    dsimp only
    cases hfb : st.fixedBlock with
    | none => exact Or.inl ⟨_, rfl⟩
    | some fb =>
      dsimp only
      cases hff : fastForward tb.b2 fb st.fixCodes st.warnings with
      | error m => exact Or.inl ⟨m, rfl⟩
      | ok res =>
        obtain ⟨fb', codes', warns'⟩ := res
        obtain ⟨skipped, hs1, hs2⟩ := fastForward_spec tb.b2 st.fixCodes fb st.warnings
          fb' codes' warns' hff
        dsimp only
        by_cases hland : tb.b2 = fb'.a1
        · rw [if_pos hland]
          exact Or.inr ⟨_, fb, fb', skipped, rfl, rfl, rfl, rfl, hs1, hs2⟩
        · rw [if_neg hland]
          by_cases heq : fb'.tag = Tag.equal
          · rw [if_pos heq]
            exact Or.inr ⟨_, fb, fb', skipped, rfl, rfl, rfl, rfl, hs1, hs2⟩
          · rw [if_neg heq]
            exact Or.inl ⟨_, rfl⟩
  · intro htag
    unfold dispatch
    rw [htag]
    dsimp only
    cases hfb : st.fixedBlock with
    | none => exact Or.inl ⟨_, rfl⟩
    | some fb =>
      dsimp only
      cases hft : fb.tag with
      | equal =>
        dsimp only
        by_cases hle : tb.b2 ≤ fb.a2
        · rw [if_pos hle]
          exact Or.inr ⟨_, rfl, rfl⟩
        · rw [if_neg hle]
          exact Or.inl ⟨_, rfl⟩
      | replace => exact Or.inl ⟨_, rfl⟩
      | delete => exact Or.inl ⟨_, rfl⟩
      | insert => exact Or.inl ⟨_, rfl⟩

/-- Witness for `template_region_preservation` at a concrete state: a
`replace` template block over `raw[1:3]` appends exactly that raw text,
and an `insert` template block appends nothing. -/
theorem template_region_preservation_witness :
    ((∃ m, dispatch "abcd".toList "XYeee".toList "XYeee".toList
             ⟨['Z'], [], [], none, some ⟨Tag.equal, 0, 5, 0, 5⟩, 1, 0, 0, []⟩
             ⟨Tag.replace, 1, 3, 0, 2⟩ = .err m) ∨
     (∃ st' fb0 landing skipped,
        (⟨['Z'], [], [], none, some ⟨Tag.equal, 0, 5, 0, 5⟩, 1, 0, 0, []⟩
          : FixState).fixedBlock = some fb0 ∧
        dispatch "abcd".toList "XYeee".toList "XYeee".toList
            ⟨['Z'], [], [], none, some ⟨Tag.equal, 0, 5, 0, 5⟩, 1, 0, 0, []⟩
            ⟨Tag.replace, 1, 3, 0, 2⟩ = .next st' ∧
        st'.writeBuff = ['Z'] ++ pySlice "abcd".toList 1 3 ∧
        st'.fixedBlock = some landing ∧
        fb0 :: ([] : List Opcode) = skipped ++ landing :: st'.fixCodes ∧
        st'.warnings = [] ++ skipped.filter (fun e => e.tag != Tag.equal))) ∧
    ((∃ m, dispatch "abcd".toList "XYeee".toList "XYeee".toList
             ⟨['Z'], [], [], none, some ⟨Tag.equal, 0, 5, 0, 5⟩, 1, 0, 0, []⟩
             ⟨Tag.insert, 1, 1, 0, 2⟩ = .err m) ∨
     (∃ st', dispatch "abcd".toList "XYeee".toList "XYeee".toList
               ⟨['Z'], [], [], none, some ⟨Tag.equal, 0, 5, 0, 5⟩, 1, 0, 0, []⟩
               ⟨Tag.insert, 1, 1, 0, 2⟩ = .next st' ∧
        st'.writeBuff = ['Z'])) :=
  ⟨(template_region_preservation "abcd".toList "XYeee".toList "XYeee".toList
      ⟨['Z'], [], [], none, some ⟨Tag.equal, 0, 5, 0, 5⟩, 1, 0, 0, []⟩
      ⟨Tag.replace, 1, 3, 0, 2⟩).1 rfl,
   (template_region_preservation "abcd".toList "XYeee".toList "XYeee".toList
      ⟨['Z'], [], [], none, some ⟨Tag.equal, 0, 5, 0, 5⟩, 1, 0, 0, []⟩
      ⟨Tag.insert, 1, 1, 0, 2⟩).2 rfl⟩

/-- The single opcode `('equal', 0, n, 0, n)` that
`SequenceMatcher.get_opcodes` yields for two identical non-empty
buffers. -/
def selfOp (s : Str) : Opcode := ⟨Tag.equal, 0, s.length, 0, s.length⟩

/-- `SequenceMatcher(a=s, b=s).get_opcodes()`: a single whole-buffer
`equal` opcode, or the empty list when `s` is empty. -/
def selfOps (s : Str) : List Opcode :=
  if s.length = 0 then [] else [selfOp s]

/-- Structural well-formedness of one `get_opcodes` opcode between buffers
`a` and `b`: `equal` spans are non-empty, of equal length and equal
content; `replace` spans are non-empty on both sides; `delete` spans are
non-empty on the a-side only; `insert` spans are non-empty on the b-side
only. -/
def opOK (a b : Str) (op : Opcode) : Bool :=
  match op.tag with
  | .equal => decide (op.a1 < op.a2) && decide (op.a2 - op.a1 = op.b2 - op.b1)
                && (pySlice a op.a1 op.a2 == pySlice b op.b1 op.b2)
  | .replace => decide (op.a1 < op.a2) && decide (op.b1 < op.b2)
  | .delete => decide (op.a1 < op.a2) && (op.b1 == op.b2)
  | .insert => (op.a1 == op.a2) && decide (op.b1 < op.b2)

/-- Structural well-formedness of a full `get_opcodes` list between `a`
and `b`, starting at offsets `(i, j)`: contiguous, in order, fully
covering both buffers. -/
def chainOK (a b : Str) : Nat → Nat → List Opcode → Bool
  | i, j, [] => (i == a.length) && (j == b.length)
  | i, j, op :: rest =>
    (op.a1 == i) && (op.b1 == j) && opOK a b op && chainOK a b op.a2 op.b2 rest

/-- C2 counterexample: with `raw = "ab"`, `templated = "xy"`,
`fixed = "xy"` (byte-identical to templated, i.e. no edits),
`SequenceMatcher` yields the single template opcode
`('replace', 0, 2, 0, 2)` and the single fix opcode
`('equal', 0, 2, 0, 2)`; `fix_string` then raises
`NotImplementedError` ("Unexpectedly depleted the fixes. Panic!") in the
replace branch's fast-forward — it does not return `(raw, False)`. -/
theorem fix_string_identity_counterexample :
    LintedFile.fix_string
        ⟨[], [], (some "ab".toList, some "xy".toList, some "xy".toList), []⟩
        [⟨Tag.replace, 0, 2, 0, 2⟩] (selfOps "xy".toList) 10
      = FixStringResult.err "Unexpectedly depleted the fixes. Panic!" ∧
    chainOK "ab".toList "xy".toList 0 0 [⟨Tag.replace, 0, 2, 0, 2⟩] = true := by
  constructor <;> rfl

theorem take_append_slice (s : Str) (i k : Nat) (h : i ≤ k) :
    s.take i ++ pySlice s i k = s.take k := by
  conv_rhs => rw [show k = i + (k - i) by omega, List.take_add]
  rfl

theorem pySlice_length (s : Str) (i k : Nat) (hk : k ≤ s.length) (hik : i ≤ k) :
    (pySlice s i k).length = k - i := by
  unfold pySlice
  simp only [List.length_take, List.length_drop]
  omega

theorem opOK_equal_dest (a b : Str) (op : Opcode) (htag : op.tag = Tag.equal)
    (h : opOK a b op = true) :
    op.a1 < op.a2 ∧ op.a2 - op.a1 = op.b2 - op.b1 ∧
      pySlice a op.a1 op.a2 = pySlice b op.b1 op.b2 := by
  unfold opOK at h
  rw [htag] at h
  simp only [Bool.and_eq_true, decide_eq_true_eq, beq_iff_eq] at h
  exact ⟨h.1.1, h.1.2, h.2⟩

theorem opOK_replace_dest (a b : Str) (op : Opcode) (htag : op.tag = Tag.replace)
    (h : opOK a b op = true) : op.a1 < op.a2 ∧ op.b1 < op.b2 := by
  unfold opOK at h
  rw [htag] at h
  simpa using h

theorem opOK_delete_dest (a b : Str) (op : Opcode) (htag : op.tag = Tag.delete)
    (h : opOK a b op = true) : op.a1 < op.a2 ∧ op.b1 = op.b2 := by
  unfold opOK at h
  rw [htag] at h
  simpa using h

theorem opOK_insert_dest (a b : Str) (op : Opcode) (htag : op.tag = Tag.insert)
    (h : opOK a b op = true) : op.a1 = op.a2 ∧ op.b1 < op.b2 := by
  unfold opOK at h
  rw [htag] at h
  simpa using h

theorem opOK_bounds (a b : Str) (op : Opcode) (h : opOK a b op = true) :
    op.a1 ≤ op.a2 ∧ op.b1 ≤ op.b2 := by
  cases htag : op.tag
  · have := opOK_equal_dest a b op htag h
    omega
  · have := opOK_replace_dest a b op htag h
    omega
  · have := opOK_delete_dest a b op htag h
    omega
  · have := opOK_insert_dest a b op htag h
    omega

theorem chainOK_nil_dest (a b : Str) (i j : Nat) (h : chainOK a b i j [] = true) :
    i = a.length ∧ j = b.length := by
  unfold chainOK at h
  simpa using h

theorem chainOK_cons_dest (a b : Str) (i j : Nat) (op : Opcode) (rest : List Opcode)
    (h : chainOK a b i j (op :: rest) = true) :
    op.a1 = i ∧ op.b1 = j ∧ opOK a b op = true ∧ chainOK a b op.a2 op.b2 rest = true := by
  unfold chainOK at h
  simp only [Bool.and_eq_true, beq_iff_eq] at h
  exact ⟨h.1.1.1, h.1.1.2, h.1.2, h.2⟩

theorem chainOK_le (a b : Str) :
    ∀ (ops : List Opcode) (i j : Nat), chainOK a b i j ops = true →
      i ≤ a.length ∧ j ≤ b.length := by
  intro ops
  induction ops with
  | nil =>
    intro i j h
    have := chainOK_nil_dest a b i j h
    omega
  | cons op rest ih =>
    intro i j h
    obtain ⟨h1, h2, hop, hrest⟩ := chainOK_cons_dest a b i j op rest h
    have hb := opOK_bounds a b op hop
    have hle := ih op.a2 op.b2 hrest
    omega

/-- The simulation invariant for `fix_string` run with `fixed = templated`:
the written buffer is exactly the raw prefix up to `idx0`, the fixed-side
cursor tracks the templated-side cursor, the template opcode chain is
well formed and positioned at the cursor, and the fix-side state is the
single whole-buffer `equal` opcode (pending, current, or consumed). -/
def SelfInv (raw templated : Str) (st : FixState) : Prop :=
  st.writeBuff = raw.take st.idx0 ∧
  st.idx2 = st.idx1 ∧
  (match st.templBlock with
   | none => chainOK raw templated st.idx0 st.idx1 st.templCodes = true
   | some tb =>
       st.idx0 = tb.a1 ∧ st.idx1 = tb.b1 ∧ opOK raw templated tb = true ∧
       chainOK raw templated tb.a2 tb.b2 st.templCodes = true) ∧
  (st.fixedBlock = none ∨ st.fixedBlock = some (selfOp templated)) ∧
  (st.fixCodes = [] ∨ (st.fixCodes = [selfOp templated] ∧ st.fixedBlock = none))

theorem dispatch_preserves (raw templated : Str) (st : FixState) (tb : Opcode)
    (hw : st.writeBuff = raw.take st.idx0)
    (hi2 : st.idx2 = st.idx1)
    (h0 : st.idx0 = tb.a1) (h1 : st.idx1 = tb.b1)
    (hop : opOK raw templated tb = true)
    (hch : chainOK raw templated tb.a2 tb.b2 st.templCodes = true)
    (hfb : st.fixedBlock = none ∨ st.fixedBlock = some (selfOp templated))
    (hfc : st.fixCodes = [])
    (st' : FixState)
    (h : dispatch raw templated templated st tb = .next st') :
    SelfInv raw templated st' := by
  have hbounds := chainOK_le raw templated st.templCodes tb.a2 tb.b2 hch
  unfold dispatch at h
  cases htag : tb.tag
  -- equal template block
  · rw [htag] at h
    dsimp only at h
    rcases hfb with hfbn | hfbs
    · rw [hfbn] at h
      simp at h
    · rw [hfbs] at h
      dsimp only [selfOp] at h
      obtain ⟨hlt, hlen, hsl⟩ := opOK_equal_dest raw templated tb htag hop
      have hb1b2 : tb.b1 ≤ tb.b2 := by omega
      by_cases hb2 : tb.b2 = templated.length
      · rw [if_pos hb2] at h
        cases h
        have hslen : (pySlice templated tb.b1 templated.length).length = tb.b2 - tb.b1 := by
          rw [← hb2]
          exact pySlice_length templated tb.b1 tb.b2 (by omega) hb1b2
        refine ⟨?_, ?_, ?_, Or.inl rfl, Or.inl hfc⟩
        · dsimp only
          rw [hw, h0, h1, hslen, show tb.a1 + (tb.b2 - tb.b1) = tb.a2 by omega, ← hb2, ← hsl]
          exact take_append_slice raw tb.a1 tb.a2 (by omega)
        · dsimp only
          omega
        · dsimp only
          rw [h0, h1, hslen, show tb.a1 + (tb.b2 - tb.b1) = tb.a2 by omega,
            show tb.b1 + (tb.b2 - tb.b1) = tb.b2 by omega]
          exact hch
      · rw [if_neg hb2, if_neg (by omega : ¬templated.length < tb.b2)] at h
        cases h
        have hslen : (pySlice templated tb.b1 tb.b2).length = tb.b2 - tb.b1 :=
          pySlice_length templated tb.b1 tb.b2 (by omega) hb1b2
        refine ⟨?_, ?_, ?_, Or.inr rfl, Or.inl hfc⟩
        · dsimp only
          rw [hw, h0, h1, hslen, show tb.a1 + (tb.b2 - tb.b1) = tb.a2 by omega, ← hsl]
          exact take_append_slice raw tb.a1 tb.a2 (by omega)
        · dsimp only
          omega
        · dsimp only
          rw [h0, h1, hslen, show tb.a1 + (tb.b2 - tb.b1) = tb.a2 by omega,
            show tb.b1 + (tb.b2 - tb.b1) = tb.b2 by omega]
          exact hch
  -- replace template block
  · rw [htag] at h
    dsimp only at h
    rcases hfb with hfbn | hfbs
    · rw [hfbn] at h
      simp at h
    · rw [hfbs] at h
      rw [hfc] at h
      dsimp only [selfOp] at h
      obtain ⟨hlta, hltb⟩ := opOK_replace_dest raw templated tb htag hop
      unfold fastForward at h
      dsimp only at h
      by_cases hcond : tb.b2 < templated.length ∧ 0 ≤ tb.b2
      · rw [if_pos hcond] at h
        dsimp only at h
        rw [if_neg (by omega : ¬tb.b2 = 0)] at h
        rw [if_pos rfl] at h
        cases h
        refine ⟨?_, ?_, ?_, Or.inr rfl, Or.inl rfl⟩
        · dsimp only
          rw [hw, h0]
          exact take_append_slice raw tb.a1 tb.a2 (by omega)
        · dsimp only
          omega
        · dsimp only
          exact hch
      · rw [if_neg hcond] at h
        simp at h
  -- delete template block
  · rw [htag] at h
    dsimp only at h
    cases h
    obtain ⟨hlta, hbeq⟩ := opOK_delete_dest raw templated tb htag hop
    have hslen : (pySlice raw tb.a1 tb.a2).length = tb.a2 - tb.a1 :=
      pySlice_length raw tb.a1 tb.a2 hbounds.1 (by omega)
    refine ⟨?_, ?_, ?_, hfb, Or.inl hfc⟩
    · dsimp only
      rw [hw, h0, hslen, show tb.a1 + (tb.a2 - tb.a1) = tb.a2 by omega]
      exact take_append_slice raw tb.a1 tb.a2 (by omega)
    · dsimp only
      exact hi2
    · dsimp only
      rw [h0, h1, hslen, hbeq, show tb.a1 + (tb.a2 - tb.a1) = tb.a2 by omega]
      exact hch
  -- insert template block
  · rw [htag] at h
    dsimp only at h
    rcases hfb with hfbn | hfbs
    · rw [hfbn] at h
      simp at h
    · rw [hfbs] at h
      dsimp only [selfOp] at h
      obtain ⟨haeq, hltb⟩ := opOK_insert_dest raw templated tb htag hop
      rw [if_pos (hbounds.2 : tb.b2 ≤ templated.length)] at h
      cases h
      refine ⟨hw, ?_, ?_, ?_, ?_⟩
      · dsimp only
        omega
      · dsimp only
        rw [h1, show tb.b1 + (tb.b2 - tb.b1) = tb.b2 by omega, h0, haeq]
        exact hch
      · dsimp only
        by_cases hend : tb.b2 = templated.length
        · rw [if_pos hend]
          exact Or.inl rfl
        · rw [if_neg hend]
          exact Or.inr rfl
      · exact Or.inl hfc

theorem dispatch_ne_done (raw templated fixed : Str) (st : FixState) (tb : Opcode)
    (buff : Str) (warns : List Opcode) :
    dispatch raw templated fixed st tb ≠ .done buff warns := by
  intro h
  unfold dispatch at h
  cases htag : tb.tag <;> rw [htag] at h <;> dsimp only at h
  · rcases hsf : st.fixedBlock with _ | fb <;> rw [hsf] at h <;> dsimp only at h
    · simp at h
    · cases hft : fb.tag <;> rw [hft] at h <;> dsimp only at h
      · split_ifs at h <;> simp at h
      · split_ifs at h <;> simp at h
      · simp at h
      · simp at h
  · rcases hsf : st.fixedBlock with _ | fb <;> rw [hsf] at h <;> dsimp only at h
    · simp at h
    · rcases hff : fastForward tb.b2 fb st.fixCodes st.warnings with m | ⟨fb', codes', warns'⟩ <;>
        rw [hff] at h <;> dsimp only at h
      · simp at h
      · split_ifs at h <;> simp at h
  · simp at h
  · rcases hsf : st.fixedBlock with _ | fb <;> rw [hsf] at h <;> dsimp only at h
    · simp at h
    · cases hft : fb.tag <;> rw [hft] at h <;> dsimp only at h
      · split_ifs at h <;> simp at h
      · simp at h
      · simp at h
      · simp at h

theorem stage2_ne_done (raw templated fixed : Str) (st : FixState) (tb : Opcode)
    (buff : Str) (warns : List Opcode) :
    stage2 raw templated fixed st tb ≠ .done buff warns := by
  intro h
  unfold stage2 at h
  rcases hsf : st.fixedBlock with _ | f <;> rw [hsf] at h <;> dsimp only at h
  · rcases hsc : st.fixCodes with _ | ⟨f, rest⟩ <;> rw [hsc] at h <;> dsimp only at h
    · split_ifs at h
      all_goals first
        | exact dispatch_ne_done raw templated fixed st tb buff warns h
        | simp at h
    · exact dispatch_ne_done raw templated fixed _ tb buff warns h
  · exact dispatch_ne_done raw templated fixed st tb buff warns h

theorem stage2_preserves (raw templated : Str) (st : FixState) (tb : Opcode)
    (hw : st.writeBuff = raw.take st.idx0)
    (hi2 : st.idx2 = st.idx1)
    (h0 : st.idx0 = tb.a1) (h1 : st.idx1 = tb.b1)
    (hop : opOK raw templated tb = true)
    (hch : chainOK raw templated tb.a2 tb.b2 st.templCodes = true)
    (hfb : st.fixedBlock = none ∨ st.fixedBlock = some (selfOp templated))
    (hfc : st.fixCodes = [] ∨ (st.fixCodes = [selfOp templated] ∧ st.fixedBlock = none))
    (st' : FixState)
    (h : stage2 raw templated templated st tb = .next st') :
    SelfInv raw templated st' := by
  unfold stage2 at h
  rcases hsf : st.fixedBlock with _ | f <;> rw [hsf] at h <;> dsimp only at h
  · rcases hsc : st.fixCodes with _ | ⟨f, rest⟩ <;> rw [hsc] at h <;> dsimp only at h
    · split_ifs at h with hdel
      all_goals first
        | exact dispatch_preserves raw templated st tb hw hi2 h0 h1 hop hch
            (Or.inl hsf) hsc st' h
        | simp at h
    · have hf1 : f = selfOp templated ∧ rest = [] := by
        rcases hfc with hfc | ⟨hfc, _⟩
        · rw [hfc] at hsc
          cases hsc
        · rw [hfc] at hsc
          injection hsc with e1 e2
          exact ⟨e1.symm, e2.symm⟩
      obtain ⟨he1, he2⟩ := hf1
      subst he1 he2
      exact dispatch_preserves raw templated
        { st with fixCodes := [], fixedBlock := some (selfOp templated) } tb
        hw hi2 h0 h1 hop hch (Or.inr rfl) rfl st' h
  · have hfs : f = selfOp templated := by
      rcases hfb with hfb2 | hfb2
      · rw [hfb2] at hsf
        cases hsf
      · rw [hfb2] at hsf
        injection hsf with e
        exact e.symm
    subst hfs
    have hfcs : st.fixCodes = [] := by
      rcases hfc with hfc2 | ⟨_, hfc2⟩
      · exact hfc2
      · rw [hfc2] at hsf
        cases hsf
    exact dispatch_preserves raw templated st tb hw hi2 h0 h1 hop hch
      (Or.inr hsf) hfcs st' h

theorem step_preserves (raw templated : Str) (st st' : FixState)
    (hinv : SelfInv raw templated st)
    (h : step raw templated templated st = .next st') :
    SelfInv raw templated st' := by
  obtain ⟨hw, hi2, htb, hfb, hfc⟩ := hinv
  unfold step at h
  rcases htbv : st.templBlock with _ | tb <;> rw [htbv] at h <;> dsimp only at h <;>
    rw [htbv] at htb <;> dsimp only at htb
  · rcases htcv : st.templCodes with _ | ⟨t, rest⟩ <;> rw [htcv] at h <;> dsimp only at h
    · split_ifs at h <;> simp at h
    · rw [htcv] at htb
      obtain ⟨ht1, ht2, htop, htch⟩ := chainOK_cons_dest raw templated st.idx0 st.idx1 t rest htb
      exact stage2_preserves raw templated { st with templCodes := rest, templBlock := some t }
        t hw hi2 ht1.symm ht2.symm htop htch hfb
        (by
          rcases hfc with hfc | ⟨hfc1, hfc2⟩
          · exact Or.inl hfc
          · exact Or.inr ⟨hfc1, hfc2⟩) st' h
  · obtain ⟨ht0, ht1, htop, htch⟩ := htb
    exact stage2_preserves raw templated st tb hw hi2 ht0 ht1 htop htch hfb hfc st' h

theorem step_done (raw templated : Str) (st : FixState) (buff : Str) (warns : List Opcode)
    (hinv : SelfInv raw templated st)
    (h : step raw templated templated st = .done buff warns) :
    buff = raw := by
  obtain ⟨hw, hi2, htb, hfb, hfc⟩ := hinv
  unfold step at h
  rcases htbv : st.templBlock with _ | tb <;> rw [htbv] at h <;> dsimp only at h <;>
    rw [htbv] at htb <;> dsimp only at htb
  · rcases htcv : st.templCodes with _ | ⟨t, rest⟩ <;> rw [htcv] at h <;> dsimp only at h
    · rw [htcv] at htb
      obtain ⟨hend0, hend1⟩ := chainOK_nil_dest raw templated st.idx0 st.idx1 htb
      have hwb : st.writeBuff = raw := by
        rw [hw, hend0, List.take_length]
      split_ifs at h with hc1 hc2
      · injection h with e1 e2
        rw [← e1, hwb]
      · rcases hfc with hfc | ⟨hfc1, _⟩
        · rw [hfc] at h
          dsimp only [List.foldl_nil] at h
          injection h with e1 e2
          rw [← e1, hwb]
        · rw [hfc1] at hc2
          simp [selfOp] at hc2
    · exact absurd h (stage2_ne_done raw templated templated _ t buff warns)
  · exact absurd h (stage2_ne_done raw templated templated st tb buff warns)

theorem fixLoop_ok_of_inv (raw templated : Str) :
    ∀ (fuel : Nat) (st : FixState) (out : Str) (ch : Bool),
      SelfInv raw templated st →
      fixLoop raw templated templated fuel st = .ok out ch →
      out = raw ∧ ch = false := by
  intro fuel
  induction fuel with
  | zero =>
    intro st out ch _ h
    simp [fixLoop] at h
  | succ n ih =>
    intro st out ch hinv h
    unfold fixLoop at h
    cases hs : step raw templated templated st with
    | done b w =>
      rw [hs] at h
      injection h with e1 e2
      have hb := step_done raw templated st b w hinv hs
      refine ⟨e1 ▸ hb, ?_⟩
      rw [← e2, hb]
      simp
    | next st2 =>
      rw [hs] at h
      exact ih st2 out ch (step_preserves raw templated st st2 hinv hs) h
    | err m =>
      rw [hs] at h
      simp at h

/-- C2 amended: whenever `fix_string` on a file mask with
`fixed == templated` (no edits) returns an output buffer rather than
raising, that output is exactly `raw` and `changed` is `False` — for any
well-formed template opcode chain.  The unconditional form of the claim
is false: `fix_string` raises `NotImplementedError` instead of returning
when a `replace` template opcode extends to the very end of the
templated buffer (see the counterexample). -/
theorem fix_string_identity_of_ok (lf : LintedFile) (raw templated : Str)
    (templOps : List Opcode) (fuel : Nat) (out : Str) (ch : Bool)
    (hmask : lf.file_mask = (some raw, some templated, some templated))
    (hchain : chainOK raw templated 0 0 templOps = true)
    (h : lf.fix_string templOps (selfOps templated) fuel = .ok out ch) :
    out = raw ∧ ch = false := by
  unfold LintedFile.fix_string fixStringMasked at h
  rw [hmask] at h
  apply fixLoop_ok_of_inv raw templated fuel _ out ch _ h
  refine ⟨rfl, rfl, hchain, Or.inl rfl, ?_⟩
  unfold initFixState selfOps
  by_cases hn : templated.length = 0
  · rw [if_pos hn]
    exact Or.inl rfl
  · rw [if_neg hn]
    exact Or.inr ⟨rfl, rfl⟩

/-- Witness for `fix_string_identity_of_ok`: `raw = templated = fixed =
"a"`, template opcodes `[('equal', 0, 1, 0, 1)]`; `fix_string` returns
`("a", False)`. -/
theorem fix_string_identity_of_ok_witness :
    "a".toList = "a".toList ∧ (false : Bool) = false :=
  fix_string_identity_of_ok
    ⟨[], [], (some "a".toList, some "a".toList, some "a".toList), []⟩
    "a".toList "a".toList [⟨Tag.equal, 0, 1, 0, 1⟩] 10 "a".toList false
    rfl (by decide) (by decide)
